import Mathlib

/-!
Verification of the crypto.com SDK client (`crypto_dot_com/client.py`):
the response/error pipeline of `_post` and `_get_public`, the binary-split
order-history paginator `get_order_history`, the backward candlestick
time-walk `get_all_candlesticks`, the `get_candlesticks` query parameter
construction, and the `CandlestickTimeInterval` string resolution.

Python integers are embedded as `Int`; Python floor division `//` is
`Int.fdiv`.  The two paginators interact with the HTTP endpoint through an
oracle function from a query window to the list of records the endpoint
returns for it; since neither loop is guaranteed to terminate for every
oracle, both are embedded fuel-indexed, returning `none` when the fuel runs
out (a run of the Python code that diverges corresponds to `none` for every
fuel).
-/

namespace CryptoDotCom

/-! ## Response pipeline of `_post` and `_get_public` -/

/-- Model of `requests.Response.ok` as relied upon by the client and pinned by the
repository tests (`MockResponse.ok` in `tests/test_client.py`): `True`
exactly for a 2xx HTTP status. -/
def responseOk (status : Nat) : Bool :=
  decide (200 ≤ status) && decide (status < 300)

/-- Modelled from the spec: the error payload parsed by
`CryptoDotComErrorResponse.model_validate` (its class lives in
`data_models/crypto_dot_com.py`, outside the provided sources); per the
spec, an error envelope carries at least a numeric `code` and a `message`. -/
structure CryptoDotComErrorResponse where
  code : Int
  message : String
deriving DecidableEq, Repr

/-- The body of an HTTP response as far as the client inspects it: the
envelope fields `code` and `message` together with the `result` payload
(validated by `CryptoDotComResponseType.model_validate` on the success
path). -/
structure ResponseBody (ρ : Type) where
  code : Int
  message : String
  result : ρ
deriving DecidableEq, Repr

/-- The exception kinds that `_post` can raise from the in-body
error-code classifier, each preserving the error code and message it was
raised with. -/
inductive ClassifiedError where
  | badPrice (code : Int) (message : String)
  | badQuantity (code : Int) (message : String)
  | generic (code : Int) (message : String)
deriving DecidableEq, Repr

/-- The in-body error-code classifier inlined in `_post`
(`client.py:136-155`): code 315 or 308 raises `BadPriceException`,
code 213 raises `BadQuantityException`, any other code raises
`RuntimeError(str(error_response))`. -/
def classifyErrorResponse (e : CryptoDotComErrorResponse) : ClassifiedError :=
  if e.code = 315 then .badPrice e.code e.message
  else if e.code = 308 then .badPrice e.code e.message
  else if e.code = 213 then .badQuantity e.code e.message
  else .generic e.code e.message

/-- Holds exactly on the price-error kind. -/
def ClassifiedError.isBadPrice : ClassifiedError → Bool
  | .badPrice _ _ => true
  | _ => false

/-- Holds exactly on the quantity-error kind. -/
def ClassifiedError.isBadQuantity : ClassifiedError → Bool
  | .badQuantity _ _ => true
  | _ => false

/-- Outcome of `_post` after the HTTP round trip (`client.py:124-155`):
either the validated envelope's result, or one of the exceptions raised by
the in-body classifier. -/
inductive PostResult (ρ : Type) where
  | success (result : ρ)
  | classified (e : ClassifiedError)
deriving DecidableEq, Repr

/-- Response dispatch of `_post` (`client.py:124-155`): if `response.ok`
the body is validated and its result returned; otherwise the body is parsed
as an error response and handed to the in-body error-code classifier. -/
def postDispatch {ρ : Type} (status : Nat) (body : ResponseBody ρ) : PostResult ρ :=
  if responseOk status then
    .success body.result
  else
    .classified (classifyErrorResponse ⟨body.code, body.message⟩)

/-- Outcome of `_get_public` after the HTTP round trip
(`client.py:83-91`): the validated result on `response.ok`, else a
`NotImplementedError` carrying the response body. -/
inductive GetPublicResult (ρ : Type) where
  | success (result : ρ)
  | notImplementedError (code : Int) (message : String)
deriving DecidableEq, Repr

/-- Response dispatch of `_get_public` (`client.py:83-91`): a 2xx response
is validated and returned; any other raises
`NotImplementedError(f"{response.json()}")`, never invoking the error-code
classifier. -/
def getPublicDispatch {ρ : Type} (status : Nat) (body : ResponseBody ρ) :
    GetPublicResult ρ :=
  if responseOk status then
    .success body.result
  else
    .notImplementedError body.code body.message

/-! ## The binary-split order-history paginator (`get_order_history`) -/

/-- Embedding of `CryptoAPI.get_order_history` (`client.py:163-198`), fuel-indexed.
`endpoint s e` is the `data` list the order-history endpoint returns for
the query window `start_time = s`, `end_time = e` (the `instrument_name`
and `limit` parameters of the request are fixed ambient values);
`parse` is `OrderHistoryDataMessage.model_validate`.  The returned pair is
the record list together with the number of endpoint calls made.  If the
fetched page has fewer than `limit` records it is returned (validated,
in order); otherwise the page is discarded and the two recursive calls
on `(s, (s+e)//2 + 1)` and `((s+e)//2, e)` are concatenated, first half
then second half.  `none` means the fuel ran out, i.e. the Python
recursion has not returned within that depth. -/
def get_order_history {α β : Type} (endpoint : Int → Int → List α)
    (parse : α → β) (limit : Nat) :
    Nat → Int → Int → Option (List β × Nat)
  | 0, _, _ => none
  | fuel + 1, s, e =>
    let data := endpoint s e
    if data.length < limit then
      some (data.map parse, 1)
    else
      match get_order_history endpoint parse limit fuel s ((s + e).fdiv 2 + 1),
            get_order_history endpoint parse limit fuel ((s + e).fdiv 2) e with
      | some (l, cl), some (r, cr) => some (l ++ r, 1 + cl + cr)
      | _, _ => none

/-- Termination of `get_order_history` on the given window: some fuel (hence
every larger one) makes it return. -/
def OrderHistoryTerminates {α β : Type} (endpoint : Int → Int → List α)
    (parse : α → β) (limit : Nat) (s e : Int) : Prop :=
  ∃ fuel res, get_order_history endpoint parse limit fuel s e = some res

/-! ## The `CandlestickTimeInterval` enum and interval resolution -/

/-- The `CandlestickTimeInterval` `StrEnum` (`enums.py:46-58`). -/
inductive CandlestickTimeInterval where
  | MINUTE_1 | MINUTE_5 | MINUTE_15 | MINUTE_30
  | HOUR_1 | HOUR_2 | HOUR_4 | HOUR_12
  | DAY_1 | DAY_7 | DAT_14 | MONTH_1
deriving DecidableEq, Repr, Fintype

namespace CandlestickTimeInterval

/-- The Python member name of each `CandlestickTimeInterval` member. -/
def name : CandlestickTimeInterval → String
  | .MINUTE_1 => "MINUTE_1"
  | .MINUTE_5 => "MINUTE_5"
  | .MINUTE_15 => "MINUTE_15"
  | .MINUTE_30 => "MINUTE_30"
  | .HOUR_1 => "HOUR_1"
  | .HOUR_2 => "HOUR_2"
  | .HOUR_4 => "HOUR_4"
  | .HOUR_12 => "HOUR_12"
  | .DAY_1 => "DAY_1"
  | .DAY_7 => "DAY_7"
  | .DAT_14 => "DAT_14"
  | .MONTH_1 => "MONTH_1"

/-- The string value of each `CandlestickTimeInterval` member. -/
def value : CandlestickTimeInterval → String
  | .MINUTE_1 => "1m"
  | .MINUTE_5 => "5m"
  | .MINUTE_15 => "15m"
  | .MINUTE_30 => "30m"
  | .HOUR_1 => "1h"
  | .HOUR_2 => "2h"
  | .HOUR_4 => "4h"
  | .HOUR_12 => "12h"
  | .DAY_1 => "1D"
  | .DAY_7 => "7D"
  | .DAT_14 => "14D"
  | .MONTH_1 => "1M"

/-- The members of the enum in declaration order. -/
def members : List CandlestickTimeInterval :=
  [.MINUTE_1, .MINUTE_5, .MINUTE_15, .MINUTE_30,
   .HOUR_1, .HOUR_2, .HOUR_4, .HOUR_12,
   .DAY_1, .DAY_7, .DAT_14, .MONTH_1]

/-- Python `CandlestickTimeInterval[s]`: lookup by member name, `none` when
the `KeyError` path is taken. -/
def ofName (s : String) : Option CandlestickTimeInterval :=
  members.find? (fun c => c.name == s)

/-- Python `CandlestickTimeInterval(s)`: lookup by member value, `none`
when the `ValueError` path is taken. -/
def ofValue (s : String) : Option CandlestickTimeInterval :=
  members.find? (fun c => c.value == s)

end CandlestickTimeInterval

/-- Interval-string resolution at the top of `get_all_candlesticks`
(`client.py:387-396`): `CandlestickTimeInterval[interval]` is tried first;
on `KeyError`, `CandlestickTimeInterval(value=interval)`; if that raises
`ValueError` too, the whole call raises `ValueError`, modelled as `none`. -/
def resolveInterval (s : String) : Option CandlestickTimeInterval :=
  match CandlestickTimeInterval.ofName s with
  | some c => some c
  | none => CandlestickTimeInterval.ofValue s

/-! ## `get_candlesticks` query-parameter construction -/

/-- A value of the query-parameter dict of `get_candlesticks`. -/
inductive ParamValue where
  | str (s : String)
  | int (n : Int)
deriving DecidableEq, Repr

/-- The `params` dict built by `get_candlesticks` (`client.py:328-336`),
as the ordered association list of its insertions: `instrument_name`,
`count` and `timeframe` always, then `start_ts` only when the caller
supplied one, then `end_ts` only when the caller supplied one.  `none`
models the `ValueError` of `CandlestickTimeInterval(timeframe)` on an
invalid timeframe string. -/
def get_candlesticks_params (instrument_name : String) (count : Int)
    (timeframe : String) (start_ts end_ts : Option Int) :
    Option (List (String × ParamValue)) :=
  match CandlestickTimeInterval.ofValue timeframe with
  | none => none
  | some itv =>
    some
      (([("instrument_name", ParamValue.str instrument_name),
         ("count", ParamValue.int count),
         ("timeframe", ParamValue.str itv.value)]
        ++ (match start_ts with
            | some t => [("start_ts", ParamValue.int t)]
            | none => []))
        ++ (match end_ts with
            | some t => [("end_ts", ParamValue.int t)]
            | none => []))

/-! ## The backward candlestick time-walk (`get_all_candlesticks`) -/

/-- Observable outcome of one run of the `while True` loop of
`get_all_candlesticks`: the accumulated `kline_data`, the number of calls
to `get_candlesticks`, and the list of `(start_ts, end_ts)` windows those
calls were made with, in call order. -/
structure CandleRun (γ : Type) where
  data : List γ
  calls : Nat
  windows : List (Int × Int)
deriving DecidableEq, Repr

/-- The loop-break test `min_timestamp is not None and end_ts < min_timestamp`
(`client.py:420`). -/
def belowFloor (minTs : Option Int) (end_ts : Int) : Bool :=
  match minTs with
  | some m => decide (end_ts < m)
  | none => false

/-- The `end_ts` of the `i`-th loop iteration (`client.py:418`). -/
def winEnd (anchor step : Int) (i : Nat) : Int :=
  anchor - (i : Int) * step

/-- The `start_ts` of the `i`-th loop iteration (`client.py:419`). -/
def winStart (anchor step : Int) (i : Nat) : Int :=
  winEnd anchor step i - step

/-- The `while True` loop of `get_all_candlesticks` (`client.py:417-433`),
fuel-indexed, from loop counter `i` on.  `endpoint start_ts end_ts` is the
batch `get_candlesticks` returns for that window (the instrument and
`count=n_steps` being fixed ambient values).  Each iteration computes
`end_ts = anchor - i*step` and `start_ts = end_ts - step`; if a floor
`minTs` is given and `end_ts` is below it the loop breaks before fetching;
otherwise the window is fetched, an empty batch breaks the loop, and a
non-empty batch is appended and `i` incremented.  `none` means the fuel
ran out. -/
def candleLoop {γ : Type} (endpoint : Int → Int → List γ)
    (step anchor : Int) (minTs : Option Int) :
    Nat → Nat → Option (CandleRun γ)
  | 0, _ => none
  | fuel + 1, i =>
    let end_ts : Int := winEnd anchor step i
    let start_ts : Int := winStart anchor step i
    if belowFloor minTs end_ts then
      some ⟨[], 0, []⟩
    else
      let batch := endpoint start_ts end_ts
      if batch.isEmpty then
        some ⟨[], 1, [(start_ts, end_ts)]⟩
      else
        match candleLoop endpoint step anchor minTs fuel (i + 1) with
        | some rest =>
            some ⟨batch ++ rest.data, rest.calls + 1, (start_ts, end_ts) :: rest.windows⟩
        | none => none

/-- The anchor time of the walk (`client.py:406,413-415`):
`current_time = get_current_time_miliseconds()`, lowered to
`min(max_timestamp, current_time)` when `max_datetime` was supplied. -/
def anchorOf (maxTs : Option Int) (now : Int) : Int :=
  match maxTs with
  | some m => min m now
  | none => now

/-- Embedding of `CryptoAPI.get_all_candlesticks` (`client.py:377-444`) with the
interval already resolved: `intervalMs` is the interval duration in
milliseconds (`IntervalTypeEnum.get_interval_in_miliseconds`), `n_steps`
the page size, `now` the current time in milliseconds, and `minTs`/`maxTs`
the millisecond timestamps of `min_datetime`/`max_datetime` when supplied.
`step = intervalMs * n_steps` and the walk starts at
`anchor = anchorOf maxTs now` with `i = 0`. -/
def get_all_candlesticks {γ : Type} (endpoint : Int → Int → List γ)
    (intervalMs n_steps now : Int) (minTs maxTs : Option Int)
    (fuel : Nat) : Option (CandleRun γ) :=
  candleLoop endpoint (intervalMs * n_steps) (anchorOf maxTs now) minTs fuel 0

/-- The string-interval entry path of `get_all_candlesticks`
(`client.py:387-400`): the interval string is resolved by name, then by
value; an unresolvable string raises `ValueError` (the `Except.error`
branch) and nothing else happens; otherwise the walk runs with the
interval duration `intervalMsOf` of the resolved member. -/
def get_all_candlesticks_str {γ : Type} (endpoint : Int → Int → List γ)
    (intervalMsOf : CandlestickTimeInterval → Int)
    (s : String) (n_steps now : Int) (minTs maxTs : Option Int)
    (fuel : Nat) : Except String (Option (CandleRun γ)) :=
  match resolveInterval s with
  | none => .error ("the given interval " ++ s ++ " is not valid!")
  | some itv =>
      .ok (get_all_candlesticks endpoint (intervalMsOf itv) n_steps now minTs maxTs fuel)

/-! ## Concrete oracles used as witnesses -/

/-- Order-history endpoint returning one record on window `(0, 4)` and
nothing elsewhere. -/
def epSplit : Int → Int → List Int := fun s e => if s = 0 ∧ e = 4 then [7] else []

/-- Order-history endpoint returning one record on every window. -/
def epAlwaysFull : Int → Int → List Int := fun _ _ => [0]

/-- Candlestick endpoint answering `[1]` on the window starting at 15,
`[2]` on the window starting at 10, and an empty batch elsewhere. -/
def epCandles : Int → Int → List Int :=
  fun s _ => if s = 15 then [1] else if s = 10 then [2] else []

/-! ## Theorems for the claims -/

theorem get_order_history_mono {α β : Type} (endpoint : Int → Int → List α)
    (parse : α → β) (limit : Nat) :
    ∀ {n m : Nat}, n ≤ m → ∀ {s e : Int} {res : List β × Nat},
      get_order_history endpoint parse limit n s e = some res →
      get_order_history endpoint parse limit m s e = some res := by
  intro n
  induction n with
  | zero => intro m _ s e res h; simp [get_order_history] at h
  | succ n ih =>
    intro m hnm s e res h
    obtain ⟨m, rfl⟩ : ∃ k, m = k + 1 :=
      ⟨m - 1, (Nat.succ_pred_eq_of_pos (Nat.lt_of_lt_of_le n.succ_pos hnm)).symm⟩
    have hnm' : n ≤ m := Nat.succ_le_succ_iff.mp hnm
    rw [get_order_history] at h ⊢
    by_cases hlt : (endpoint s e).length < limit
    · rw [if_pos hlt] at h ⊢; exact h
    · rw [if_neg hlt] at h ⊢
      rcases hl : get_order_history endpoint parse limit n s ((s + e).fdiv 2 + 1)
        with _ | ⟨l, cl⟩ <;> rw [hl] at h
      · simp at h
      · rcases hr : get_order_history endpoint parse limit n ((s + e).fdiv 2) e
          with _ | ⟨r, cr⟩ <;> rw [hr] at h
        · simp at h
        · rw [ih hnm' hl, ih hnm' hr]
          exact h

/-- C4: the in-body classification of `_post` raises the price-error kind
(`BadPriceException`) exactly for codes 315 and 308, the quantity-error
kind (`BadQuantityException`) exactly for code 213, and for any other
nonzero code the generic kind preserving the original code and message. -/
theorem error_code_classification (code : Int) (msg : String) :
    ((classifyErrorResponse ⟨code, msg⟩).isBadPrice = true ↔ (code = 315 ∨ code = 308)) ∧
    ((classifyErrorResponse ⟨code, msg⟩).isBadQuantity = true ↔ code = 213) ∧
    (code ≠ 315 → code ≠ 308 → code ≠ 213 → code ≠ 0 →
      classifyErrorResponse ⟨code, msg⟩ = .generic code msg) := by
  unfold classifyErrorResponse
  split_ifs with h1 h2 h3 <;>
    simp_all [ClassifiedError.isBadPrice, ClassifiedError.isBadQuantity]

/-- Witness for C4 at the unmapped nonzero code 42. -/
theorem error_code_classification_witness :
    (((classifyErrorResponse ⟨42, "Bad request"⟩).isBadPrice = true ↔
        ((42 : Int) = 315 ∨ (42 : Int) = 308)) ∧
      ((classifyErrorResponse ⟨42, "Bad request"⟩).isBadQuantity = true ↔
        (42 : Int) = 213)) ∧
    classifyErrorResponse ⟨42, "Bad request"⟩ = .generic 42 "Bad request" := by
  have h := error_code_classification 42 "Bad request"
  exact ⟨⟨h.1, h.2.1⟩, h.2.2 (by decide) (by decide) (by decide) (by decide)⟩

/-- C3 (amended): in `_post` a 2xx response is returned without touching
the classifier, while every non-2xx response IS handed to the in-body
error-code classifier; only `_get_public` surfaces a non-2xx response as a
distinct kind (`NotImplementedError`) without invoking the classifier. -/
theorem transport_dispatch {ρ : Type} (status : Nat) (body : ResponseBody ρ) :
    (responseOk status = true → postDispatch status body = .success body.result) ∧
    (responseOk status = false →
      postDispatch status body =
        .classified (classifyErrorResponse ⟨body.code, body.message⟩)) ∧
    (responseOk status = false →
      getPublicDispatch status body = .notImplementedError body.code body.message) := by
  refine ⟨fun h => ?_, fun h => ?_, fun h => ?_⟩ <;>
    simp [postDispatch, getPublicDispatch, h]

/-- Witness for C3 (amended) at statuses 200 and 400. -/
theorem transport_dispatch_witness :
    postDispatch 200 (⟨0, "", (3 : Nat)⟩ : ResponseBody Nat) = .success 3 ∧
    postDispatch 400 (⟨42, "m", (3 : Nat)⟩ : ResponseBody Nat) =
      .classified (classifyErrorResponse ⟨42, "m"⟩) ∧
    getPublicDispatch 400 (⟨42, "m", (3 : Nat)⟩ : ResponseBody Nat) =
      .notImplementedError 42 "m" :=
  ⟨(transport_dispatch 200 ⟨0, "", 3⟩).1 rfl,
   (transport_dispatch 400 ⟨42, "m", 3⟩).2.1 rfl,
   (transport_dispatch 400 ⟨42, "m", 3⟩).2.2 rfl⟩

/-- C3 counterexample: the HTTP 400 response carrying in-body code 315 is
not in the 2xx range, yet `_post` passes it to the in-body error-code
classifier (raising `BadPriceException`) instead of surfacing a distinct
transport-error kind. -/
theorem transport_isolation_counterexample :
    responseOk 400 = false ∧
    postDispatch 400 (⟨315, "Invalid price", (0 : Nat)⟩ : ResponseBody Nat) =
      .classified (.badPrice 315 "Invalid price") := by
  exact ⟨rfl, rfl⟩

/-- C8: when the page fetched for the window has strictly fewer than
`limit` records, `get_order_history` makes exactly one endpoint call and
returns exactly those records, validated, in the order received. -/
theorem order_history_base_case {α β : Type} (endpoint : Int → Int → List α)
    (parse : α → β) (limit : Nat) (s e : Int) (fuel : Nat)
    (h : (endpoint s e).length < limit) :
    get_order_history endpoint parse limit (fuel + 1) s e =
      some ((endpoint s e).map parse, 1) := by
  rw [get_order_history, if_pos h]

/-- Witness for C8: a one-record page under `limit = 2`. -/
theorem order_history_base_case_witness :
    get_order_history (fun _ _ => [(3 : Int)]) id 2 1 0 9 = some ([3], 1) :=
  order_history_base_case (fun _ _ => [(3 : Int)]) id 2 0 9 0 (by decide)

/-- C1: when the fetched page has exactly `limit` records,
`get_order_history` discards it and returns the concatenation of the
recursive call on `(start, (start+end)//2 + 1)` followed by the recursive
call on `((start+end)//2, end)`. -/
theorem order_history_full_page_splits {α β : Type} (endpoint : Int → Int → List α)
    (parse : α → β) (limit : Nat) (s e : Int)
    (hfull : (endpoint s e).length = limit)
    (fl fr : Nat) (l r : List β) (cl cr : Nat)
    (hl : get_order_history endpoint parse limit fl s ((s + e).fdiv 2 + 1) = some (l, cl))
    (hr : get_order_history endpoint parse limit fr ((s + e).fdiv 2) e = some (r, cr)) :
    get_order_history endpoint parse limit (max fl fr + 1) s e =
      some (l ++ r, 1 + cl + cr) := by
  have hl' := get_order_history_mono endpoint parse limit (le_max_left fl fr) hl
  have hr' := get_order_history_mono endpoint parse limit (le_max_right fl fr) hr
  rw [get_order_history, if_neg (by rw [hfull]; exact lt_irrefl limit), hl', hr']

/-- Witness for C1: `epSplit` returns a full page (of `limit = 1`) on
`(0, 4)`; the two recursive windows `(0, 3)` and `(2, 4)` both come back
empty, so the full page is discarded and the result is empty after three
endpoint calls. -/
theorem order_history_full_page_splits_witness :
    get_order_history epSplit id 1 2 0 4 = some ([], 3) := by
  have h := order_history_full_page_splits epSplit id 1 0 4 (by decide)
    1 1 [] [] 1 1 (by decide) (by decide)
  simpa using h

/-- C2 counterexample: on the window `start_time = 0`, `end_time = 1`
(so `start_time < end_time`) with `limit = 1` and an endpoint that answers
every query with exactly one record (a list of length `≤ limit`), the
recursion of `get_order_history` never returns: the first recursive window
`(0, (0+1)//2 + 1) = (0, 1)` is the very same window, so the window does
not shrink and no fuel suffices. -/
theorem order_history_divergence :
    ¬ OrderHistoryTerminates epAlwaysFull id 1 0 1 := by
  rintro ⟨fuel, res, h⟩
  have hnone : ∀ f : Nat, get_order_history epAlwaysFull id 1 f 0 1 = none := by
    intro f
    induction f with
    | zero => rfl
    | succ n ih =>
      rw [get_order_history, if_neg (by decide)]
      have hmid : ((0 : Int) + 1).fdiv 2 + 1 = 1 := by decide
      rw [hmid, ih]
  rw [hnone fuel] at h
  exact Option.noConfusion h

/-- C2 (amended): the recursion of `get_order_history` terminates for every
endpoint behaviour that returns fewer than `limit` records on every window
of width at most 2; for wider windows each recursive call strictly shrinks
the window, but a window of width 1 or 2 recurses into a window with the
same bounds, so the unconditional claim fails (see the counterexample). -/
theorem order_history_terminates_of_small_windows {α β : Type}
    (endpoint : Int → Int → List α) (parse : α → β) (limit : Nat)
    (hsmall : ∀ s e : Int, e - s ≤ 2 → (endpoint s e).length < limit)
    (s e : Int) :
    ∃ res, get_order_history endpoint parse limit ((e - s).toNat + 1) s e = some res := by
  suffices haux : ∀ n : Nat, ∀ s e : Int, (e - s).toNat ≤ n →
      ∃ res, get_order_history endpoint parse limit (n + 1) s e = some res by
    exact haux ((e - s).toNat) s e le_rfl
  intro n
  induction n with
  | zero =>
    intro s e hn
    have hw : e - s ≤ 2 := by omega
    exact ⟨((endpoint s e).map parse, 1),
      by rw [get_order_history, if_pos (hsmall s e hw)]⟩
  | succ n ih =>
    intro s e hn
    by_cases hlt : (endpoint s e).length < limit
    · exact ⟨((endpoint s e).map parse, 1), by rw [get_order_history, if_pos hlt]⟩
    · have hw : 2 < e - s := by
        by_contra hle
        exact hlt (hsmall s e (by omega))
      have hdm := Int.fdiv_add_fmod (s + e) 2
      have hm0 : 0 ≤ (s + e).fmod 2 := Int.fmod_nonneg' (s + e) (by norm_num)
      have hm2 : (s + e).fmod 2 < 2 := Int.fmod_lt_of_pos (s + e) (by norm_num)
      have hleft : (((s + e).fdiv 2 + 1) - s).toNat ≤ n := by omega
      have hright : (e - (s + e).fdiv 2).toNat ≤ n := by omega
      obtain ⟨⟨l, cl⟩, hl⟩ := ih s ((s + e).fdiv 2 + 1) hleft
      obtain ⟨⟨r, cr⟩, hr⟩ := ih ((s + e).fdiv 2) e hright
      exact ⟨(l ++ r, 1 + cl + cr), by rw [get_order_history, if_neg hlt, hl, hr]⟩

/-- Witness for C2 (amended): an endpoint that always answers with an
empty page trivially satisfies the small-window hypothesis under
`limit = 1`, and the paginator terminates on the window `(0, 10)`. -/
theorem order_history_terminates_witness :
    ∃ res, get_order_history (fun _ _ => ([] : List Int)) id 1
      (((10 : Int) - 0).toNat + 1) 0 10 = some res :=
  order_history_terminates_of_small_windows (fun _ _ => ([] : List Int)) id 1
    (fun _ _ _ => Nat.one_pos) 0 10

theorem belowFloor_none (e : Int) : belowFloor none e = false := rfl

theorem belowFloor_some (m e : Int) : belowFloor (some m) e = decide (e < m) := rfl

theorem candleLoop_mono {γ : Type} (endpoint : Int → Int → List γ)
    (step anchor : Int) (minTs : Option Int) :
    ∀ {n m : Nat}, n ≤ m → ∀ {i : Nat} {run : CandleRun γ},
      candleLoop endpoint step anchor minTs n i = some run →
      candleLoop endpoint step anchor minTs m i = some run := by
  intro n
  induction n with
  | zero => intro m _ i run h; simp [candleLoop] at h
  | succ n ih =>
    intro m hnm i run h
    obtain ⟨m, rfl⟩ : ∃ k, m = k + 1 :=
      ⟨m - 1, (Nat.succ_pred_eq_of_pos (Nat.lt_of_lt_of_le n.succ_pos hnm)).symm⟩
    have hnm' : n ≤ m := Nat.succ_le_succ_iff.mp hnm
    rw [candleLoop] at h ⊢
    by_cases hfl : belowFloor minTs (winEnd anchor step i) = true
    · rw [if_pos hfl] at h ⊢; exact h
    · rw [if_neg hfl] at h ⊢
      by_cases hb : (endpoint (winStart anchor step i) (winEnd anchor step i)).isEmpty = true
      · rw [if_pos hb] at h ⊢; exact h
      · rw [if_neg hb] at h ⊢
        rcases hrec : candleLoop endpoint step anchor minTs n (i + 1)
          with _ | rest <;> rw [hrec] at h
        · simp at h
        · rw [ih hnm' hrec]
          exact h

theorem candleLoop_windows_aux {γ : Type} (endpoint : Int → Int → List γ)
    (step anchor : Int) (minTs : Option Int) :
    ∀ (fuel i : Nat) (run : CandleRun γ),
      candleLoop endpoint step anchor minTs fuel i = some run →
      run.windows = (List.range run.windows.length).map
          (fun j => (winStart anchor step (i + j), winEnd anchor step (i + j))) ∧
      (∀ m, minTs = some m → ∀ w ∈ run.windows, m ≤ w.2) := by
  intro fuel
  induction fuel with
  | zero => intro i run h; simp [candleLoop] at h
  | succ fuel ih =>
    intro i run h
    rw [candleLoop] at h
    by_cases hfl : belowFloor minTs (winEnd anchor step i) = true
    · rw [if_pos hfl] at h
      obtain rfl : (⟨[], 0, []⟩ : CandleRun γ) = run := by
        simpa using h
      simp
    · rw [if_neg hfl] at h
      have hnofl : ∀ m, minTs = some m → m ≤ winEnd anchor step i := by
        intro m hm
        rw [hm, belowFloor_some] at hfl
        simpa using hfl
      by_cases hb : (endpoint (winStart anchor step i) (winEnd anchor step i)).isEmpty = true
      · rw [if_pos hb] at h
        obtain rfl : (⟨[], 1, [(winStart anchor step i, winEnd anchor step i)]⟩ :
            CandleRun γ) = run := by
          simpa using h
        refine ⟨by simp [List.range_succ], ?_⟩
        intro m hm w hw
        simp only [List.mem_singleton] at hw
        subst hw
        exact hnofl m hm
      · rw [if_neg hb] at h
        rcases hrec : candleLoop endpoint step anchor minTs fuel (i + 1)
          with _ | rest <;> rw [hrec] at h
        · simp at h
        · obtain rfl : (⟨endpoint (winStart anchor step i) (winEnd anchor step i) ++ rest.data,
              rest.calls + 1,
              (winStart anchor step i, winEnd anchor step i) :: rest.windows⟩ :
              CandleRun γ) = run := by
            simpa using h
          obtain ⟨ihw, ihf⟩ := ih (i + 1) rest hrec
          constructor
          · simp only [List.length_cons, List.range_succ_eq_map, List.map_cons,
              List.map_map]
            congr 1
            conv_lhs => rw [ihw]
            apply List.map_congr_left
            intro j _
            simp only [Function.comp_apply, Nat.succ_eq_add_one]
            have hj : i + 1 + j = i + (j + 1) := by omega
            rw [hj]
          · intro m hm w hw
            simp only [List.mem_cons] at hw
            rcases hw with rfl | hw
            · exact hnofl m hm
            · exact ihf m hm w hw

/-- C6: in `get_all_candlesticks` the step is `intervalMs * n_steps`, the
anchor is `min(maxTime, now)` when `maxTime` is given and `now` otherwise,
the `j`-th fetched window is `(anchor - j*step - step, anchor - j*step)`,
and when a floor `minTime` is given no window whose `end` is strictly
below the floor is ever fetched (the loop stops first). -/
theorem candles_window_schedule {γ : Type} (endpoint : Int → Int → List γ)
    (intervalMs n_steps now : Int) (minTs maxTs : Option Int) (fuel : Nat)
    (run : CandleRun γ)
    (h : get_all_candlesticks endpoint intervalMs n_steps now minTs maxTs fuel = some run) :
    run.windows = (List.range run.windows.length).map
        (fun (j : Nat) =>
          (anchorOf maxTs now - (j : Int) * (intervalMs * n_steps) - intervalMs * n_steps,
           anchorOf maxTs now - (j : Int) * (intervalMs * n_steps))) ∧
    (∀ m, minTs = some m → ∀ w ∈ run.windows, m ≤ w.2) := by
  obtain ⟨hw, hf⟩ := candleLoop_windows_aux endpoint (intervalMs * n_steps)
    (anchorOf maxTs now) minTs fuel 0 run h
  refine ⟨?_, hf⟩
  conv_lhs => rw [hw]
  apply List.map_congr_left
  intro j _
  simp [winStart, winEnd]

theorem candleLoop_empty_exit_aux {γ : Type} (endpoint : Int → Int → List γ)
    (step anchor : Int) :
    ∀ (k i fuel : Nat), k + 1 ≤ fuel →
      (∀ j, j < k →
        (endpoint (winStart anchor step (i + j)) (winEnd anchor step (i + j))).isEmpty = false) →
      (endpoint (winStart anchor step (i + k)) (winEnd anchor step (i + k))).isEmpty = true →
      candleLoop endpoint step anchor none fuel i =
        some ⟨((List.range k).map
                (fun j => endpoint (winStart anchor step (i + j)) (winEnd anchor step (i + j)))).flatten,
              k + 1,
              (List.range (k + 1)).map
                (fun j => (winStart anchor step (i + j), winEnd anchor step (i + j)))⟩ := by
  intro k
  induction k with
  | zero =>
    intro i fuel hfuel _ he
    obtain ⟨fuel, rfl⟩ : ∃ m, fuel = m + 1 :=
      ⟨fuel - 1, (Nat.succ_pred_eq_of_pos hfuel).symm⟩
    rw [candleLoop]
    rw [if_neg (by rw [belowFloor_none]; exact Bool.false_ne_true)]
    rw [if_pos (by simpa using he)]
    simp [List.range_succ]
  | succ k ih =>
    intro i fuel hfuel hne he
    obtain ⟨fuel, rfl⟩ : ∃ m, fuel = m + 1 :=
      ⟨fuel - 1, (Nat.succ_pred_eq_of_pos (Nat.lt_of_lt_of_le k.succ.succ_pos hfuel)).symm⟩
    have hfuel' : k + 1 ≤ fuel := Nat.succ_le_succ_iff.mp hfuel
    have hne0 : (endpoint (winStart anchor step i) (winEnd anchor step i)).isEmpty = false := by
      simpa using hne 0 k.succ_pos
    have hrec := ih (i + 1) fuel hfuel'
      (fun j hj => by
        have := hne (j + 1) (Nat.succ_lt_succ hj)
        simpa [Nat.add_assoc, Nat.add_comm 1 j] using this)
      (by
        have := he
        simpa [Nat.add_assoc, Nat.add_comm 1 k] using this)
    rw [candleLoop]
    rw [if_neg (by rw [belowFloor_none]; exact Bool.false_ne_true)]
    rw [if_neg (by rw [hne0]; exact Bool.false_ne_true)]
    rw [hrec]
    have hhead : ∀ j : Nat, i + 1 + j = i + (j + 1) := fun j => by omega
    have hwin : ((List.range (k + 1 + 1)).map
        (fun j => (winStart anchor step (i + j), winEnd anchor step (i + j)))) =
        (winStart anchor step i, winEnd anchor step i) ::
          (List.range (k + 1)).map
            (fun j => (winStart anchor step (i + 1 + j), winEnd anchor step (i + 1 + j))) := by
      rw [List.range_succ_eq_map, List.map_cons, List.map_map]
      congr 1
      apply List.map_congr_left
      intro j _
      simp only [Function.comp_apply, Nat.succ_eq_add_one]
      rw [hhead j]
    have hdata : (((List.range (k + 1)).map
        (fun j => endpoint (winStart anchor step (i + j)) (winEnd anchor step (i + j)))).flatten) =
        endpoint (winStart anchor step i) (winEnd anchor step i) ++
          ((List.range k).map
            (fun j => endpoint (winStart anchor step (i + 1 + j))
              (winEnd anchor step (i + 1 + j)))).flatten := by
      rw [List.range_succ_eq_map, List.map_cons, List.map_map, List.flatten_cons]
      congr 2
      apply List.map_congr_left
      intro j _
      simp only [Function.comp_apply, Nat.succ_eq_add_one]
      rw [hhead j]
    rw [hwin, hdata]

/-- C5: with no `min_datetime` floor, `get_all_candlesticks` stops
immediately after the first call whose batch is empty and returns the
concatenation, in fetch order, of all batches fetched before it; `k`
non-empty batches followed by an empty one mean exactly `k + 1` calls. -/
theorem candles_stop_on_first_empty {γ : Type} (endpoint : Int → Int → List γ)
    (intervalMs n_steps now : Int) (maxTs : Option Int) (k fuel : Nat)
    (hfuel : k + 1 ≤ fuel)
    (hne : ∀ j, j < k →
      (endpoint (winStart (anchorOf maxTs now) (intervalMs * n_steps) j)
        (winEnd (anchorOf maxTs now) (intervalMs * n_steps) j)).isEmpty = false)
    (he : (endpoint (winStart (anchorOf maxTs now) (intervalMs * n_steps) k)
        (winEnd (anchorOf maxTs now) (intervalMs * n_steps) k)).isEmpty = true) :
    get_all_candlesticks endpoint intervalMs n_steps now none maxTs fuel =
      some ⟨((List.range k).map
              (fun j => endpoint (winStart (anchorOf maxTs now) (intervalMs * n_steps) j)
                (winEnd (anchorOf maxTs now) (intervalMs * n_steps) j))).flatten,
            k + 1,
            (List.range (k + 1)).map
              (fun j => (winStart (anchorOf maxTs now) (intervalMs * n_steps) j,
                winEnd (anchorOf maxTs now) (intervalMs * n_steps) j))⟩ := by
  have h := candleLoop_empty_exit_aux endpoint (intervalMs * n_steps) (anchorOf maxTs now)
    k 0 fuel hfuel (by simpa using hne) (by simpa using he)
  unfold get_all_candlesticks
  rw [h]
  simp

theorem candleLoop_floor_term_aux {γ : Type} (endpoint : Int → Int → List γ)
    (step anchor m : Int) (hstep : 0 < step) :
    ∀ (fuel i : Nat), (anchor - (i : Int) * step - m).toNat < fuel →
      ∃ run, candleLoop endpoint step anchor (some m) (fuel + 1) i = some run := by
  intro fuel
  induction fuel with
  | zero => intro i h; omega
  | succ fuel ih =>
    intro i h
    by_cases hfl : winEnd anchor step i < m
    · exact ⟨⟨[], 0, []⟩, by
        rw [candleLoop, if_pos (by rw [belowFloor_some]; simpa using hfl)]⟩
    · have hge : m ≤ winEnd anchor step i := le_of_not_lt hfl
      by_cases hb : (endpoint (winStart anchor step i) (winEnd anchor step i)).isEmpty = true
      · exact ⟨⟨[], 1, [(winStart anchor step i, winEnd anchor step i)]⟩, by
          rw [candleLoop, if_neg (by rw [belowFloor_some]; simpa using hfl), if_pos hb]⟩
      · have hnext : ∃ run, candleLoop endpoint step anchor (some m) (fuel + 1) (i + 1) =
            some run := by
          by_cases hfl1 : winEnd anchor step (i + 1) < m
          · exact ⟨⟨[], 0, []⟩, by
              rw [candleLoop, if_pos (by rw [belowFloor_some]; simpa using hfl1)]⟩
          · apply ih
            have hE1 : winEnd anchor step (i + 1) = anchor - (i : Int) * step - step := by
              simp only [winEnd]
              push_cast
              ring
            have h1 : m ≤ anchor - (i : Int) * step - step := hE1 ▸ le_of_not_lt hfl1
            have hcast : ((i + 1 : Nat) : Int) = (i : Int) + 1 := by push_cast; ring
            have hsub : anchor - ((i : Int) + 1) * step - m =
                anchor - (i : Int) * step - m - step := by ring
            rw [hcast, hsub]
            omega
        obtain ⟨rest, hrest⟩ := hnext
        exact ⟨⟨endpoint (winStart anchor step i) (winEnd anchor step i) ++ rest.data,
            rest.calls + 1, (winStart anchor step i, winEnd anchor step i) :: rest.windows⟩, by
          rw [candleLoop, if_neg (by rw [belowFloor_some]; simpa using hfl), if_neg hb, hrest]⟩

/-- C7: whenever a `min_datetime` floor is supplied and the step is
positive (positive interval duration and positive `n_steps`), the loop of
`get_all_candlesticks` terminates regardless of the behaviour of the
endpoint, because successive window end times strictly decrease by `step`
until one falls below the floor; and when the floor lies above the second
window's end (but not above the anchor), the loop stops after exactly one
endpoint call. -/
theorem candles_terminate_with_floor {γ : Type} (endpoint : Int → Int → List γ)
    (intervalMs n_steps now m : Int) (maxTs : Option Int)
    (h1 : 0 < intervalMs) (h2 : 0 < n_steps) :
    (∃ fuel run,
      get_all_candlesticks endpoint intervalMs n_steps now (some m) maxTs fuel = some run) ∧
    (∀ fuel : Nat, m ≤ anchorOf maxTs now →
      anchorOf maxTs now - intervalMs * n_steps < m →
      ∃ run,
        get_all_candlesticks endpoint intervalMs n_steps now (some m) maxTs (fuel + 2) =
          some run ∧ run.calls = 1) := by
  have hstep : 0 < intervalMs * n_steps := mul_pos h1 h2
  constructor
  · obtain ⟨run, hrun⟩ := candleLoop_floor_term_aux endpoint (intervalMs * n_steps)
      (anchorOf maxTs now) m hstep
      ((anchorOf maxTs now - (0 : Int) * (intervalMs * n_steps) - m).toNat + 1) 0
      (Nat.lt_succ_self _)
    exact ⟨_, run, hrun⟩
  · intro fuel hm hsecond
    have hanchor : winEnd (anchorOf maxTs now) (intervalMs * n_steps) 0 =
        anchorOf maxTs now := by simp [winEnd]
    have hfl0 : belowFloor (some m) (winEnd (anchorOf maxTs now) (intervalMs * n_steps) 0) =
        false := by
      rw [belowFloor_some, hanchor]
      simpa using not_lt.mpr hm
    have hw1 : winEnd (anchorOf maxTs now) (intervalMs * n_steps) 1 =
        anchorOf maxTs now - intervalMs * n_steps := by
      simp [winEnd]
    by_cases hb : (endpoint (winStart (anchorOf maxTs now) (intervalMs * n_steps) 0)
        (winEnd (anchorOf maxTs now) (intervalMs * n_steps) 0)).isEmpty = true
    · refine ⟨⟨[], 1, [(winStart (anchorOf maxTs now) (intervalMs * n_steps) 0,
          winEnd (anchorOf maxTs now) (intervalMs * n_steps) 0)]⟩, ?_, rfl⟩
      unfold get_all_candlesticks
      rw [candleLoop, if_neg (by rw [hfl0]; exact Bool.false_ne_true), if_pos hb]
    · have hchild : candleLoop endpoint (intervalMs * n_steps) (anchorOf maxTs now)
          (some m) (fuel + 1) 1 = some ⟨[], 0, []⟩ := by
        rw [candleLoop]
        rw [if_pos (by rw [belowFloor_some, hw1]; simpa using hsecond)]
      refine ⟨⟨endpoint (winStart (anchorOf maxTs now) (intervalMs * n_steps) 0)
            (winEnd (anchorOf maxTs now) (intervalMs * n_steps) 0) ++ [],
          0 + 1, [(winStart (anchorOf maxTs now) (intervalMs * n_steps) 0,
            winEnd (anchorOf maxTs now) (intervalMs * n_steps) 0)]⟩, ?_, rfl⟩
      unfold get_all_candlesticks
      rw [candleLoop, if_neg (by rw [hfl0]; exact Bool.false_ne_true), if_neg hb, hchild]

/-- Witness for C5: with anchor 20 and step 5, `epCandles` yields two
non-empty batches and then an empty one, so the walk makes exactly 3 calls
and returns the first two batches concatenated. -/
theorem candles_stop_on_first_empty_witness :
    get_all_candlesticks epCandles 1 5 20 none none 3 =
      some ⟨[1, 2], 3, [(15, 20), (10, 15), (5, 10)]⟩ := by
  have h := candles_stop_on_first_empty epCandles 1 5 20 none 2 3
    (by decide) (by decide) (by decide)
  rw [h]
  decide

/-- Witness for C6: the run of `epCandles` under a floor of 0 fetches the
windows `(15,20)`, `(10,15)`, `(5,10)`, matching the schedule formula, and
every fetched window's end is at or above the floor. -/
theorem candles_window_schedule_witness :
    (⟨[1, 2], 3, [(15, 20), (10, 15), (5, 10)]⟩ : CandleRun Int).windows =
      (List.range (⟨[1, 2], 3, [(15, 20), (10, 15), (5, 10)]⟩ :
          CandleRun Int).windows.length).map
        (fun (j : Nat) =>
          (anchorOf none 20 - (j : Int) * (1 * 5) - 1 * 5,
           anchorOf none 20 - (j : Int) * (1 * 5))) ∧
    (∀ m, (some (0 : Int) : Option Int) = some m →
      ∀ w ∈ (⟨[1, 2], 3, [(15, 20), (10, 15), (5, 10)]⟩ : CandleRun Int).windows,
        m ≤ w.2) :=
  candles_window_schedule epCandles 1 5 20 (some 0) none 3
    ⟨[1, 2], 3, [(15, 20), (10, 15), (5, 10)]⟩ (by decide)

/-- Witness for C7: with anchor 20, step 5 and floor 17 (above the second
window's end 15 but not above the anchor), the walk terminates and makes
exactly one endpoint call. -/
theorem candles_terminate_with_floor_witness :
    (∃ fuel run,
      get_all_candlesticks epCandles 1 5 20 (some 17) none fuel = some run) ∧
    (∃ run,
      get_all_candlesticks epCandles 1 5 20 (some 17) none 2 = some run ∧
        run.calls = 1) := by
  have h := candles_terminate_with_floor epCandles 1 5 20 17 none
    (by decide) (by decide)
  exact ⟨h.1, h.2 0 (by decide) (by decide)⟩

/-- C9: the query-parameter dict sent by `get_candlesticks` contains
exactly the keys `instrument_name`, `count` and `timeframe`, plus
`start_ts` if and only if the caller supplied one, plus `end_ts` if and
only if the caller supplied one; an absent timestamp is omitted entirely. -/
theorem candlesticks_params_keys (instrument_name : String) (count : Int)
    (timeframe : String) (start_ts end_ts : Option Int)
    (ps : List (String × ParamValue))
    (h : get_candlesticks_params instrument_name count timeframe start_ts end_ts =
      some ps) :
    ps.map Prod.fst =
      ["instrument_name", "count", "timeframe"]
        ++ (if start_ts.isSome then ["start_ts"] else [])
        ++ (if end_ts.isSome then ["end_ts"] else []) ∧
    (("start_ts" ∈ ps.map Prod.fst) ↔ start_ts.isSome = true) ∧
    (("end_ts" ∈ ps.map Prod.fst) ↔ end_ts.isSome = true) := by
  unfold get_candlesticks_params at h
  rcases hv : CandlestickTimeInterval.ofValue timeframe with _ | itv <;> rw [hv] at h
  · exact absurd h (by simp)
  · obtain rfl : _ = ps := Option.some.injEq _ _ ▸ h
    rcases start_ts with _ | t1 <;> rcases end_ts with _ | t2 <;> simp

/-- Witness for C9: timeframe `1m` with a supplied `start_ts` and no
`end_ts`. -/
theorem candlesticks_params_keys_witness :
    ([("instrument_name", ParamValue.str "BTC_USD"), ("count", ParamValue.int 25),
      ("timeframe", ParamValue.str "1m"),
      ("start_ts", ParamValue.int 5)].map Prod.fst =
      ["instrument_name", "count", "timeframe"]
        ++ (if (some (5 : Int)).isSome then ["start_ts"] else [])
        ++ (if (none : Option Int).isSome then ["end_ts"] else [])) ∧
    (("start_ts" ∈ [("instrument_name", ParamValue.str "BTC_USD"),
        ("count", ParamValue.int 25), ("timeframe", ParamValue.str "1m"),
        ("start_ts", ParamValue.int 5)].map Prod.fst) ↔
      (some (5 : Int)).isSome = true) ∧
    (("end_ts" ∈ [("instrument_name", ParamValue.str "BTC_USD"),
        ("count", ParamValue.int 25), ("timeframe", ParamValue.str "1m"),
        ("start_ts", ParamValue.int 5)].map Prod.fst) ↔
      (none : Option Int).isSome = true) :=
  candlesticks_params_keys "BTC_USD" 25 "1m" (some 5) none
    [("instrument_name", ParamValue.str "BTC_USD"), ("count", ParamValue.int 25),
     ("timeframe", ParamValue.str "1m"), ("start_ts", ParamValue.int 5)]
    (by decide)

theorem mem_members (c : CandlestickTimeInterval) :
    c ∈ CandlestickTimeInterval.members := by
  cases c <;> simp [CandlestickTimeInterval.members]

theorem resolveInterval_isSome_iff (s : String) :
    (resolveInterval s).isSome = true ↔
      ∃ c : CandlestickTimeInterval, c.name = s ∨ c.value = s := by
  constructor
  · intro h
    rcases hres : resolveInterval s with _ | c
    · rw [hres] at h; simp at h
    · unfold resolveInterval at hres
      rcases hn : CandlestickTimeInterval.ofName s with _ | c0 <;> rw [hn] at hres
      · exact ⟨c, Or.inr (by simpa using List.find?_some hres)⟩
      · have hcc : c0 = c := by simpa using hres
        exact ⟨c0, Or.inl (by simpa using List.find?_some hn)⟩
  · rintro ⟨c, hc | hc⟩
    · unfold resolveInterval
      rcases hn : CandlestickTimeInterval.ofName s with _ | c0
      · have := List.find?_eq_none.mp hn c (mem_members c)
        simp [hc] at this
      · simp
    · unfold resolveInterval
      rcases hn : CandlestickTimeInterval.ofName s with _ | c0
      · rcases hv : CandlestickTimeInterval.ofValue s with _ | c1
        · have := List.find?_eq_none.mp hv c (mem_members c)
          simp [hc] at this
        · simp [hv]
      · simp

/-- C10: a string interval makes `get_all_candlesticks` proceed if and
only if it is the name or the value of a `CandlestickTimeInterval` member
(name lookup tried first); otherwise the call fails with `ValueError`
before any endpoint interaction, uniformly in the endpoint. -/
theorem interval_resolution {γ : Type} (endpoint : Int → Int → List γ)
    (intervalMsOf : CandlestickTimeInterval → Int) (s : String)
    (n_steps now : Int) (minTs maxTs : Option Int) (fuel : Nat) :
    ((∃ r, get_all_candlesticks_str endpoint intervalMsOf s n_steps now minTs maxTs fuel =
        Except.ok r) ↔
      ∃ c : CandlestickTimeInterval, c.name = s ∨ c.value = s) ∧
    (∀ c, CandlestickTimeInterval.ofName s = some c → resolveInterval s = some c) ∧
    (resolveInterval s = none →
      get_all_candlesticks_str endpoint intervalMsOf s n_steps now minTs maxTs fuel =
        Except.error ("the given interval " ++ s ++ " is not valid!")) := by
  refine ⟨?_, ?_, ?_⟩
  · rw [← resolveInterval_isSome_iff]
    unfold get_all_candlesticks_str
    rcases hres : resolveInterval s with _ | c <;> simp [hres]
  · intro c hc
    unfold resolveInterval
    rw [hc]
  · intro h
    unfold get_all_candlesticks_str
    rw [h]

/-- Witness for C10 at the value string `1m`, the name string `MINUTE_1`
and the invalid string `zz`. -/
theorem interval_resolution_witness :
    (∃ r, get_all_candlesticks_str (fun _ _ => ([] : List Int)) (fun _ => 60000)
        "1m" 5 20 none none 1 = Except.ok r) ∧
    resolveInterval "MINUTE_1" = some CandlestickTimeInterval.MINUTE_1 ∧
    get_all_candlesticks_str (fun _ _ => ([] : List Int)) (fun _ => 60000)
        "zz" 5 20 none none 1 =
      Except.error ("the given interval " ++ "zz" ++ " is not valid!") := by
  have h1 := interval_resolution (fun _ _ => ([] : List Int)) (fun _ => 60000)
    "1m" 5 20 none none 1
  have h2 := interval_resolution (fun _ _ => ([] : List Int)) (fun _ => 60000)
    "MINUTE_1" 5 20 none none 1
  have h3 := interval_resolution (fun _ _ => ([] : List Int)) (fun _ => 60000)
    "zz" 5 20 none none 1
  exact ⟨h1.1.mpr ⟨CandlestickTimeInterval.MINUTE_1, Or.inr rfl⟩,
    h2.2.1 CandlestickTimeInterval.MINUTE_1 (by decide),
    h3.2.2 (by decide)⟩

end CryptoDotCom
